import Mathlib

/-!
Verification of the golintmu static analyzer against its specification.

The Go source is shallowly embedded: SSA values, functions and source
positions are abstracted to natural-number identities (SSA value identity is
pointer identity in the source; `token.Pos` is a file offset, an integer);
Go maps become association lists; `*types.Named` struct types become
numeric identities.  Each definition mirrors one Go function of the
repository and keeps its name.
-/

namespace Golintmu

/-- Embeds `lockRef` (lockstate.go): identity of a lock instance — canonical base SSA
value plus mutex field index.  The single `lockRefKind` constructor
(`fieldLock`) is constant in the source and omitted. -/
structure lockRef where
  base : Nat
  fieldIndex : Nat
deriving DecidableEq, Repr

/-- Embeds `heldLock` (lockstate.go): a held lock with mode and acquisition position. -/
structure heldLock where
  ref : lockRef
  exclusive : Bool
  pos : Nat
deriving DecidableEq, Repr

/-- Embeds `lockState` (lockstate.go): per-path map from lock reference to held-lock
record plus the set of lock references with a pending deferred unlock.  Go
maps are modelled as association lists / lists of keys. -/
structure lockState where
  held : List (lockRef × heldLock)
  deferredUnlocks : List lockRef
deriving DecidableEq, Repr

/-- Go map read `m[k]`: the (unique) entry for key `k`. -/
def lookupHeld : List (lockRef × heldLock) → lockRef → Option heldLock
  | [], _ => none
  | kv :: rest, k => if kv.1 = k then some kv.2 else lookupHeld rest k

/-- Go map membership test `_, ok := m[k]` on a set of lock references. -/
def containsRef (l : List lockRef) (k : lockRef) : Bool :=
  l.any (fun r => r == k)

/-- Go map write `m[k] = v`: replace any entry for `k`. -/
def insertHeld (m : List (lockRef × heldLock)) (k : lockRef) (v : heldLock) :
    List (lockRef × heldLock) :=
  (k, v) :: m.filter (fun kv => !(kv.1 == k))

/-- Embeds `lockState.lock` (lockstate.go): insert a held-lock record. -/
def lockState.lock (ls : lockState) (ref : lockRef) (exclusive : Bool) (pos : Nat) :
    lockState :=
  { ls with held := insertHeld ls.held ref { ref := ref, exclusive := exclusive, pos := pos } }

/-- Embeds `lockState.unlock` (lockstate.go): remove a record; no-op if absent. -/
def lockState.unlock (ls : lockState) (ref : lockRef) : lockState :=
  { ls with held := ls.held.filter (fun kv => !(kv.1 == ref)) }

/-- Embeds `lockState.deferUnlock` (lockstate.go): mark a pending deferred unlock. -/
def lockState.deferUnlock (ls : lockState) (ref : lockRef) : lockState :=
  { ls with deferredUnlocks := ref :: ls.deferredUnlocks }

/-- Embeds `lockState.equalHeld` (lockstate.go): same held key set and same deferred
set, checked as in the source by a length comparison plus a one-sided
membership scan over each map. -/
def lockState.equalHeld (ls other : lockState) : Bool :=
  ls.held.length == other.held.length
    && ls.held.all (fun kv => (lookupHeld other.held kv.1).isSome)
    && ls.deferredUnlocks.length == other.deferredUnlocks.length
    && ls.deferredUnlocks.all (fun k => containsRef other.deferredUnlocks k)

/-- Embeds `lockState.intersect` (lockstate.go): keep only locks held in both states
with matching modes (the surviving record is the left state's, as in the
source); intersect the deferred-unlock sets. -/
def lockState.intersect (ls other : lockState) : lockState :=
  { held := ls.held.filter (fun kv =>
      match lookupHeld other.held kv.1 with
      | some otherHeld => kv.2.exclusive == otherHeld.exclusive
      | none => false),
    deferredUnlocks := ls.deferredUnlocks.filter
      (fun k => containsRef other.deferredUnlocks k) }

/-- Combined size of a lock state, the termination measure for block re-visits. -/
def stateSize (ls : lockState) : Nat :=
  ls.held.length + ls.deferredUnlocks.length

/-- The re-visit decision of `walkBlock` (ssawalk.go, lines 43-58): on a block
already visited with entry state `prevEntry` and a new inbound state `ls`,
either stop (`none`) — equal states, or the meet converged — or replace the
stored entry state with the meet and re-process (`some merged`). -/
def revisitMerge (prevEntry ls : lockState) : Option lockState :=
  if ls.equalHeld prevEntry then none
  else
    let merged := prevEntry.intersect ls
    if merged.equalHeld prevEntry then none
    else some merged

/-! ### Map lemmas for the lock-state lattice -/

theorem containsRef_iff_mem (l : List lockRef) (k : lockRef) :
    containsRef l k = true ↔ k ∈ l := by
  simp [containsRef, List.any_eq_true, beq_iff_eq]

theorem lookupHeld_isSome_of_mem {m : List (lockRef × heldLock)}
    {kv : lockRef × heldLock} (h : kv ∈ m) : (lookupHeld m kv.1).isSome = true := by
  induction m with
  | nil => cases h
  | cons hd tl ih =>
    simp only [lookupHeld]
    by_cases hk : hd.1 = kv.1
    · simp [hk]
    · simp only [if_neg hk]
      rcases List.mem_cons.mp h with h1 | h2
      · exact absurd (congrArg Prod.fst h1.symm) hk
      · exact ih h2

theorem lookupHeld_eq_none_of_not_mem_keys {m : List (lockRef × heldLock)}
    {k : lockRef} (h : k ∉ m.map Prod.fst) : lookupHeld m k = none := by
  induction m with
  | nil => rfl
  | cons hd tl ih =>
    simp only [List.map_cons, List.mem_cons, not_or] at h
    have hne : ¬ hd.1 = k := fun he => h.1 he.symm
    simp [lookupHeld, hne, ih h.2]

theorem lookupHeld_filter_eq_none {m : List (lockRef × heldLock)} {k : lockRef}
    (q : lockRef × heldLock → Bool) (h : lookupHeld m k = none) :
    lookupHeld (m.filter q) k = none := by
  induction m with
  | nil => rfl
  | cons hd tl ih =>
    simp only [lookupHeld] at h
    by_cases hk : hd.1 = k
    · simp [hk] at h
    · simp only [if_neg hk] at h
      simp only [List.filter_cons]
      by_cases hq : q hd = true
      · simp only [if_pos hq, lookupHeld, if_neg hk]
        exact ih h
      · simp only [if_neg hq]
        exact ih h

theorem containsRef_filter (l : List lockRef) (q : lockRef → Bool) (k : lockRef) :
    containsRef (l.filter q) k = (containsRef l k && q k) := by
  induction l with
  | nil => simp [containsRef]
  | cons hd tl ih =>
    simp only [List.filter_cons]
    by_cases hq : q hd = true
    · simp only [if_pos hq, containsRef, List.any_cons] at *
      by_cases hk : hd == k
      · have : hd = k := by simpa [beq_iff_eq] using hk
        subst this
        simp [hq]
      · simp only [hk, Bool.false_or]
        exact ih
    · simp only [if_neg hq, containsRef, List.any_cons] at *
      by_cases hk : hd == k
      · have : hd = k := by simpa [beq_iff_eq] using hk
        subst this
        simp only [Bool.not_eq_true] at hq
        simp [hq, ih, containsRef]
      · simp only [hk, Bool.false_or]
        exact ih

/-! ### C5: the meet operator -/

theorem lookupHeld_intersect (b : lockState) (k : lockRef) :
    ∀ (aheld : List (lockRef × heldLock)), (aheld.map Prod.fst).Nodup →
    lookupHeld (aheld.filter (fun kv =>
        match lookupHeld b.held kv.1 with
        | some otherHeld => kv.2.exclusive == otherHeld.exclusive
        | none => false)) k =
      (match lookupHeld aheld k, lookupHeld b.held k with
       | some v, some w => if v.exclusive = w.exclusive then some v else none
       | some _, none => none
       | none, _ => none) := by
  intro aheld
  induction aheld with
  | nil =>
    intro _
    simp [lookupHeld]
  | cons hd tl ih =>
    intro hnd
    simp only [List.map_cons, List.nodup_cons] at hnd
    simp only [List.filter_cons]
    by_cases hk : hd.1 = k
    · subst hk
      have htl : lookupHeld (tl.filter (fun kv =>
          match lookupHeld b.held kv.1 with
          | some otherHeld => kv.2.exclusive == otherHeld.exclusive
          | none => false)) hd.1 = none :=
        lookupHeld_filter_eq_none _ (lookupHeld_eq_none_of_not_mem_keys hnd.1)
      cases hb : lookupHeld b.held hd.1 with
      | none =>
        simp [lookupHeld, hb, htl]
      | some w =>
        by_cases hmode : hd.2.exclusive = w.exclusive
        · simp [lookupHeld, hb, hmode]
        · have hP : (hd.2.exclusive == w.exclusive) = false := by
            simp [hmode]
          simp [lookupHeld, hb, hP, hmode, htl]
    · have hlk : lookupHeld (hd :: tl) k = lookupHeld tl k := by
        simp [lookupHeld, hk]
      rw [hlk]
      by_cases hq : (match lookupHeld b.held hd.1 with
          | some otherHeld => hd.2.exclusive == otherHeld.exclusive
          | none => false) = true
      · rw [if_pos hq]
        have hstep : lookupHeld (hd :: tl.filter (fun kv =>
            match lookupHeld b.held kv.1 with
            | some otherHeld => kv.2.exclusive == otherHeld.exclusive
            | none => false)) k = lookupHeld (tl.filter (fun kv =>
            match lookupHeld b.held kv.1 with
            | some otherHeld => kv.2.exclusive == otherHeld.exclusive
            | none => false)) k := by
          simp [lookupHeld, hk]
        rw [hstep]
        exact ih hnd.2
      · rw [if_neg hq]
        exact ih hnd.2

/-- C5: `meet(A, B)` holds exactly the lock references present in both `A` and
`B` with equal modes (the surviving record is `A`'s), and its deferred-unlock
set is the intersection of the two deferred-unlock sets.  The no-duplicate-key
hypothesis is the Go map invariant on `A.held`. -/
theorem intersect_meet_spec (a b : lockState) (k : lockRef)
    (ha : (a.held.map Prod.fst).Nodup) :
    lookupHeld (a.intersect b).held k =
      (match lookupHeld a.held k, lookupHeld b.held k with
       | some v, some w => if v.exclusive = w.exclusive then some v else none
       | some _, none => none
       | none, _ => none)
    ∧ containsRef (a.intersect b).deferredUnlocks k
        = (containsRef a.deferredUnlocks k && containsRef b.deferredUnlocks k) := by
  constructor
  · exact lookupHeld_intersect b k a.held ha
  · exact containsRef_filter a.deferredUnlocks _ k

/-- Witness for `intersect_meet_spec` at a concrete pair of states: the lock
held in both states with matching mode survives with `A`'s record, the lock
held with differing modes is dropped, and the deferred sets intersect. -/
theorem intersect_meet_spec_witness :
    (((([((⟨0, 1⟩ : lockRef), (⟨⟨0, 1⟩, true, 10⟩ : heldLock)),
        (⟨0, 2⟩, ⟨⟨0, 2⟩, true, 11⟩)]).map Prod.fst).Nodup) ∧
    lookupHeld ((lockState.mk
        [(⟨0, 1⟩, ⟨⟨0, 1⟩, true, 10⟩), (⟨0, 2⟩, ⟨⟨0, 2⟩, true, 11⟩)]
        [⟨0, 1⟩]).intersect
      (lockState.mk [(⟨0, 1⟩, ⟨⟨0, 1⟩, true, 20⟩), (⟨0, 2⟩, ⟨⟨0, 2⟩, false, 21⟩)]
        [⟨0, 1⟩, ⟨0, 3⟩])).held ⟨0, 1⟩ = some ⟨⟨0, 1⟩, true, 10⟩) := by
  constructor
  · decide
  · have h := (intersect_meet_spec
      (lockState.mk [(⟨0, 1⟩, ⟨⟨0, 1⟩, true, 10⟩), (⟨0, 2⟩, ⟨⟨0, 2⟩, true, 11⟩)] [⟨0, 1⟩])
      (lockState.mk [(⟨0, 1⟩, ⟨⟨0, 1⟩, true, 20⟩), (⟨0, 2⟩, ⟨⟨0, 2⟩, false, 21⟩)]
        [⟨0, 1⟩, ⟨0, 3⟩])
      ⟨0, 1⟩ (by decide)).1
    rw [h]
    decide

/-! ### C6: block re-visits terminate -/

theorem intersect_held_length_le (a b : lockState) :
    (a.intersect b).held.length ≤ a.held.length :=
  List.length_filter_le _ _

theorem intersect_deferred_length_le (a b : lockState) :
    (a.intersect b).deferredUnlocks.length ≤ a.deferredUnlocks.length :=
  List.length_filter_le _ _

theorem equalHeld_intersect_of_lengths (a b : lockState)
    (hh : (a.intersect b).held.length = a.held.length)
    (hd : (a.intersect b).deferredUnlocks.length = a.deferredUnlocks.length) :
    (a.intersect b).equalHeld a = true := by
  simp only [lockState.equalHeld, Bool.and_eq_true, beq_iff_eq, List.all_eq_true]
  refine ⟨⟨⟨hh, ?_⟩, hd⟩, ?_⟩
  · intro kv hkv
    have hmem : kv ∈ a.held := List.mem_of_mem_filter hkv
    exact lookupHeld_isSome_of_mem hmem
  · intro k hk
    have hmem : k ∈ a.deferredUnlocks := List.mem_of_mem_filter hk
    exact (containsRef_iff_mem _ _).mpr hmem

/-- C6: the depth-first block walk terminates on loops and back-edges.  A
re-visit of a block either stops (the inbound state equals the stored entry
state, or the meet equals it), or replaces the stored state with the meet,
which never grows the held or deferred sets and strictly shrinks their
combined size — so each block is re-processed only finitely many times. -/
theorem walkBlock_revisit_stops_or_shrinks (prev ls : lockState) :
    revisitMerge prev ls = none ∨
    ∃ m, revisitMerge prev ls = some m
      ∧ m.held.length ≤ prev.held.length
      ∧ m.deferredUnlocks.length ≤ prev.deferredUnlocks.length
      ∧ stateSize m < stateSize prev := by
  unfold revisitMerge
  by_cases h1 : ls.equalHeld prev = true
  · left; simp [h1]
  · simp only [h1, Bool.false_eq_true, if_false]
    by_cases h2 : (prev.intersect ls).equalHeld prev = true
    · left; simp [h2]
    · right
      refine ⟨prev.intersect ls, by simp [h2], intersect_held_length_le prev ls,
        intersect_deferred_length_le prev ls, ?_⟩
      have hle1 := intersect_held_length_le prev ls
      have hle2 := intersect_deferred_length_le prev ls
      by_cases hh : (prev.intersect ls).held.length = prev.held.length
      · by_cases hd : (prev.intersect ls).deferredUnlocks.length
            = prev.deferredUnlocks.length
        · exact absurd (equalHeld_intersect_of_lengths prev ls hh hd) h2
        · have : (prev.intersect ls).deferredUnlocks.length
              < prev.deferredUnlocks.length := lt_of_le_of_ne hle2 hd
          unfold stateSize
          omega
      · have : (prev.intersect ls).held.length < prev.held.length :=
          lt_of_le_of_ne hle1 hh
        unfold stateSize
        omega

/-! ### C4: classification of double acquisitions (ssawalk.go) -/

/-- Embeds `mutexFieldKey` (interprocedural state): (struct type, mutex field index);
the `*types.Named` struct type is abstracted to a numeric identity. -/
structure mutexFieldKey where
  StructType : Nat
  FieldIndex : Nat
deriving DecidableEq, Repr

/-- Embeds `lockOrderEdge` (lockorder.go): acquired `To` while holding `From`. -/
structure lockOrderEdge where
  From : mutexFieldKey
  To : mutexFieldKey
  Pos : Nat
  Fn : Nat
deriving DecidableEq, Repr

/-- The three diagnostics reachable from `checkAndRecordLockAcquire`, named
after the reporter functions they invoke. -/
inductive acquireDiag where
  | doubleLock
  | recursiveRLock
  | lockUpgradeAttempt
deriving DecidableEq, Repr

/-- Result of `checkAndRecordLockAcquire`: emitted diagnostics, added
lock-order edges, the `Acquires` fact recorded, and the updated state. -/
structure acquireResult where
  reports : List acquireDiag
  edges : List lockOrderEdge
  acquired : Option mutexFieldKey
  state : lockState
deriving Repr

/-- Embeds `checkAndRecordLockAcquire` (ssawalk.go, lines 174-218).
`refToKey` stands for `lockRefToMutexFieldKey`, which consults the host type
information. -/
def checkAndRecordLockAcquire (refToKey : lockRef → Option mutexFieldKey)
    (fn pos : Nat) (ref : lockRef) (exclusive : Bool) (ls : lockState) :
    acquireResult :=
  let reports : List acquireDiag :=
    match lookupHeld ls.held ref with
    | some existing =>
      if exclusive && existing.exclusive then [acquireDiag.doubleLock]
      else if !exclusive && !existing.exclusive then [acquireDiag.recursiveRLock]
      else if exclusive && !existing.exclusive then [acquireDiag.lockUpgradeAttempt]
      else [acquireDiag.doubleLock]
    | none => []
  let edges : List lockOrderEdge :=
    match refToKey ref with
    | some acquiredKey =>
        (ls.held.filter (fun kv => !(kv.1 == ref))).filterMap (fun kv =>
          match refToKey kv.1 with
          | some heldKey =>
              some { From := heldKey, To := acquiredKey, Pos := pos, Fn := fn }
          | none => none)
    | none => []
  { reports := reports, edges := edges, acquired := refToKey ref,
    state := ls.lock ref exclusive pos }

/-- C4: when the acquired lock reference is already in the held set, the
emitted diagnostic is classified exactly by the pair of modes:
exclusive-after-exclusive and shared-after-exclusive yield double-lock,
shared-after-shared yields recursive-shared, exclusive-after-shared yields
lock-upgrade. -/
theorem checkAndRecordLockAcquire_classification
    (refToKey : lockRef → Option mutexFieldKey) (fn pos : Nat) (ref : lockRef)
    (exclusive : Bool) (ls : lockState) (existing : heldLock)
    (h : lookupHeld ls.held ref = some existing) :
    (checkAndRecordLockAcquire refToKey fn pos ref exclusive ls).reports =
      [match exclusive, existing.exclusive with
       | true, true => acquireDiag.doubleLock
       | false, false => acquireDiag.recursiveRLock
       | true, false => acquireDiag.lockUpgradeAttempt
       | false, true => acquireDiag.doubleLock] := by
  unfold checkAndRecordLockAcquire
  simp only [h]
  cases exclusive <;> cases hex : existing.exclusive <;> simp [hex]

/-- Witness for `checkAndRecordLockAcquire_classification`: a shared acquire
of a lock already held exclusively reports a double-lock. -/
theorem checkAndRecordLockAcquire_classification_witness :
    lookupHeld (lockState.mk [((⟨0, 1⟩ : lockRef), (⟨⟨0, 1⟩, true, 5⟩ : heldLock))]
        []).held ⟨0, 1⟩ = some ⟨⟨0, 1⟩, true, 5⟩ ∧
    (checkAndRecordLockAcquire (fun _ => none) 7 9 ⟨0, 1⟩ false
        (lockState.mk [(⟨0, 1⟩, ⟨⟨0, 1⟩, true, 5⟩)] [])).reports =
      [acquireDiag.doubleLock] := by
  refine ⟨by decide, ?_⟩
  have h := checkAndRecordLockAcquire_classification (fun _ => none) 7 9 ⟨0, 1⟩ false
    (lockState.mk [(⟨0, 1⟩, ⟨⟨0, 1⟩, true, 5⟩)] []) ⟨⟨0, 1⟩, true, 5⟩ (by decide)
  rw [h]

/-! ### C3: `ReturnsHolding` postconditions (reporter.go, ssawalk.go) -/

/-- Embeds `lockLeakCandidate` (common state): a lock held without a matching
deferred-unlock marker at a return instruction, collected by
`checkReturnWithHeldLocks`. -/
structure lockLeakCandidate where
  Fn : Nat
  Pos : Nat
  Ref : lockRef
  AcquirePos : Nat
deriving DecidableEq, Repr

/-- The per-candidate selector of `computeReturnsHolding`'s grouping loop:
a candidate contributes its return position to the bucket of
`(fn, mfk)` when it belongs to `fn` and its lock reference normalizes
to `mfk`. -/
def returnsHoldingSelector (refToKey : lockRef → Option mutexFieldKey)
    (fn : Nat) (mfk : mutexFieldKey) (c : lockLeakCandidate) : Option Nat :=
  if c.Fn = fn then
    match refToKey c.Ref with
    | some k => if k = mfk then some c.Pos else none
    | none => none
  else none

/-- The set of return positions at which `(fn, mfk)` has a leak candidate —
the `returnPositions[key]` map of `computeReturnsHolding` (a Go map of
positions, hence deduplicated). -/
def candidateReturnPositions (cands : List lockLeakCandidate)
    (refToKey : lockRef → Option mutexFieldKey) (fn : Nat) (mfk : mutexFieldKey) :
    List Nat :=
  (cands.filterMap (returnsHoldingSelector refToKey fn mfk)).dedup

/-- Embeds `computeReturnsHolding` (reporter.go, lines 178-218) at one `(fn, mfk)`
pair: true when the number of distinct candidate return positions equals the
function's count of return instructions and that count is positive.
`returns fn` is the list of positions of `fn`'s `*ssa.Return` instructions. -/
def computeReturnsHolding (cands : List lockLeakCandidate)
    (refToKey : lockRef → Option mutexFieldKey) (returns : Nat → List Nat)
    (fn : Nat) (mfk : mutexFieldKey) : Bool :=
  (candidateReturnPositions cands refToKey fn mfk).length == (returns fn).length
    && decide (0 < (returns fn).length)

theorem returnsHoldingSelector_eq_some
    (refToKey : lockRef → Option mutexFieldKey) (fn : Nat) (mfk : mutexFieldKey)
    (c : lockLeakCandidate) (p : Nat) :
    returnsHoldingSelector refToKey fn mfk c = some p ↔
      (c.Fn = fn ∧ refToKey c.Ref = some mfk ∧ c.Pos = p) := by
  unfold returnsHoldingSelector
  by_cases hfn : c.Fn = fn
  · simp only [if_pos hfn, hfn, true_and]
    cases hr : refToKey c.Ref with
    | none => simp
    | some k =>
      by_cases hkm : k = mfk
      · subst hkm; simp
      · simp [hkm]
  · simp [hfn]

theorem mem_candidateReturnPositions (cands : List lockLeakCandidate)
    (refToKey : lockRef → Option mutexFieldKey) (fn : Nat) (mfk : mutexFieldKey)
    (p : Nat) :
    p ∈ candidateReturnPositions cands refToKey fn mfk ↔
      ∃ c ∈ cands, c.Fn = fn ∧ refToKey c.Ref = some mfk ∧ c.Pos = p := by
  unfold candidateReturnPositions
  rw [List.mem_dedup, List.mem_filterMap]
  constructor
  · rintro ⟨c, hc, hsel⟩
    exact ⟨c, hc, (returnsHoldingSelector_eq_some refToKey fn mfk c p).mp hsel⟩
  · rintro ⟨c, hc, hprop⟩
    exact ⟨c, hc, (returnsHoldingSelector_eq_some refToKey fn mfk c p).mpr hprop⟩

/-- C3: the computed postcondition `ReturnsHolding(fn, mfk)` holds iff `fn`
has at least one return instruction and `mfk` appears as a leak candidate at
every return position of `fn` — that is, every return of `fn` holds the lock
without a matching deferred-unlock marker on that path.  Hypotheses: return
positions of a function are pairwise distinct, and every leak candidate of
`fn` was collected at one of `fn`'s return positions (`checkReturnWithHeldLocks`
keys candidates by the position of the return instruction it is processing). -/
theorem computeReturnsHolding_iff (cands : List lockLeakCandidate)
    (refToKey : lockRef → Option mutexFieldKey) (returns : Nat → List Nat)
    (fn : Nat) (mfk : mutexFieldKey)
    (hnd : (returns fn).Nodup)
    (hcand : ∀ c ∈ cands, c.Fn = fn → c.Pos ∈ returns fn) :
    computeReturnsHolding cands refToKey returns fn mfk = true ↔
      (returns fn ≠ [] ∧ ∀ p ∈ returns fn, ∃ c ∈ cands,
        c.Fn = fn ∧ refToKey c.Ref = some mfk ∧ c.Pos = p) := by
  have hsub : candidateReturnPositions cands refToKey fn mfk ⊆ returns fn := by
    intro p hp
    rcases (mem_candidateReturnPositions cands refToKey fn mfk p).mp hp with
      ⟨c, hc, hcfn, _, hcp⟩
    exact hcp ▸ hcand c hc hcfn
  have hposnd : (candidateReturnPositions cands refToKey fn mfk).Nodup :=
    List.nodup_dedup _
  unfold computeReturnsHolding
  rw [Bool.and_eq_true, beq_iff_eq, decide_eq_true_iff]
  constructor
  · rintro ⟨hlen, hpos⟩
    have hfs : (candidateReturnPositions cands refToKey fn mfk).toFinset =
        (returns fn).toFinset := by
      apply Finset.eq_of_subset_of_card_le
      · intro p hp
        rw [List.mem_toFinset] at *
        exact hsub hp
      · rw [List.toFinset_card_of_nodup hnd, List.toFinset_card_of_nodup hposnd]
        omega
    refine ⟨List.ne_nil_of_length_pos hpos, ?_⟩
    intro p hp
    have : p ∈ candidateReturnPositions cands refToKey fn mfk := by
      rw [← List.mem_toFinset, hfs, List.mem_toFinset]; exact hp
    exact (mem_candidateReturnPositions cands refToKey fn mfk p).mp this
  · rintro ⟨hne, hall⟩
    have hsup : returns fn ⊆ candidateReturnPositions cands refToKey fn mfk := by
      intro p hp
      exact (mem_candidateReturnPositions cands refToKey fn mfk p).mpr (hall p hp)
    have hlen : (candidateReturnPositions cands refToKey fn mfk).length =
        (returns fn).length := by
      have h1 := List.toFinset_card_of_nodup hposnd
      have h2 := List.toFinset_card_of_nodup hnd
      have hfs : (candidateReturnPositions cands refToKey fn mfk).toFinset =
          (returns fn).toFinset := by
        apply Finset.Subset.antisymm
        · intro p hp
          rw [List.mem_toFinset] at *
          exact hsub hp
        · intro p hp
          rw [List.mem_toFinset] at *
          exact hsup hp
      have h3 := congrArg Finset.card hfs
      omega
    exact ⟨hlen, List.length_pos.mpr hne⟩

/-- Witness for `computeReturnsHolding_iff`: a function with two distinct
returns, both carrying a leak candidate for the same mutex key, computes
`ReturnsHolding`, and conversely. -/
theorem computeReturnsHolding_iff_witness :
    ([(10 : Nat), 20] : List Nat).Nodup ∧
    (∀ c ∈ [(⟨3, 10, ⟨0, 1⟩, 4⟩ : lockLeakCandidate), ⟨3, 20, ⟨0, 1⟩, 4⟩],
      c.Fn = 3 → c.Pos ∈ [(10 : Nat), 20]) ∧
    computeReturnsHolding [⟨3, 10, ⟨0, 1⟩, 4⟩, ⟨3, 20, ⟨0, 1⟩, 4⟩]
      (fun r => some ⟨9, r.fieldIndex⟩) (fun _ => [10, 20]) 3 ⟨9, 1⟩ = true := by
  refine ⟨by decide, by decide, ?_⟩
  rw [computeReturnsHolding_iff _ _ _ _ _ (by decide) (by decide)]
  refine ⟨by decide, ?_⟩
  intro p hp
  rcases List.mem_pair.mp hp with rfl | rfl
  · exact ⟨⟨3, 10, ⟨0, 1⟩, 4⟩, by decide, by decide, by decide, rfl⟩
  · exact ⟨⟨3, 20, ⟨0, 1⟩, 4⟩, by decide, by decide, by decide, rfl⟩

/-! ### C7: line-scoped suppression directives (annotations.go) -/

/-- One comment in a package's AST files: file name, line number of the
comment, and its raw text (including the leading `//`), as a character
sequence. -/
structure commentRecord where
  filename : String
  line : Nat
  text : List Char
deriving DecidableEq, Repr

/-- Embeds `strings.TrimPrefix`: drop the prefix when present, else return the
string unchanged. -/
def trimPrefixChars (s p : List Char) : List Char :=
  if p.isPrefixOf s then s.drop p.length else s

/-- Embeds `strings.TrimSpace`: strip leading and trailing whitespace. -/
def trimSpaceChars (s : List Char) : List Char :=
  ((s.dropWhile Char.isWhitespace).reverse.dropWhile Char.isWhitespace).reverse

/-- Embeds `strings.TrimSpace(strings.TrimPrefix(comment.Text, "//"))` from
`parseAnnotations`. -/
def directiveText (raw : List Char) : List Char :=
  trimSpaceChars (trimPrefixChars raw "//".toList)

/-- The `mu:nolint` case guard of `parseAnnotations`: exact keyword or
keyword followed by a space and a comment. -/
def isNolintDirective (text : List Char) : Bool :=
  text == "mu:nolint".toList || "mu:nolint ".toList.isPrefixOf text

/-- The `nolint` table built by `parseAnnotations` (annotations.go, lines
53-61): for each nolint comment, the pair (file name, comment line + 1) —
recorded unconditionally, whether or not that next line is empty. -/
def nolintLines (comments : List commentRecord) : List (String × Nat) :=
  comments.filterMap (fun c =>
    if isNolintDirective (directiveText c.text) then some (c.filename, c.line + 1)
    else none)

/-- The nolint branch of `isSuppressed` (annotations.go, lines 118-124):
a diagnostic at (file, line) is suppressed when the table contains that pair. -/
def isSuppressedLine (nl : List (String × Nat)) (filename : String) (line : Nat) :
    Bool :=
  nl.any (fun p => p.1 == filename && p.2 == line)

/-- Spec-side definition, following the specification's words: the next
non-empty source line of the file strictly after `commentLine` (file content
given as a list of lines, 1-indexed). -/
def specNextNonEmptyLine (fileLines : List (List Char)) (commentLine : Nat) :
    Option Nat :=
  ((List.range fileLines.length).map (fun i => i + 1)).find?
    (fun l => decide (commentLine < l) && !(trimSpaceChars (fileLines.getD (l - 1) []) == []))

/-- Spec-side definition, following the specification's words: a diagnostic
at (file, line) is suppressed when some nolint comment of the same file has
`line` as the next non-empty source line after it. -/
def specSuppressedLine (comments : List commentRecord)
    (files : String → List (List Char)) (filename : String) (line : Nat) : Bool :=
  comments.any (fun c => c.filename == filename
    && isNolintDirective (directiveText c.text)
    && (specNextNonEmptyLine (files c.filename) c.line == some line))

/-- C7 counterexample: a `mu:nolint` comment on line 1 followed by an empty
line 2 and code on line 3.  The specification's binding rule designates
line 3 (the next non-empty line), but the implementation records line 2 only,
so a diagnostic on line 3 is not suppressed — the claim's "exactly the next
non-empty source line" fails on the code. -/
theorem nolint_binding_counterexample :
    specSuppressedLine [⟨"f.go", 1, "// mu:nolint".toList⟩]
      (fun _ => ["// mu:nolint".toList, [], "x = 1".toList]) "f.go" 3 = true
    ∧ isSuppressedLine (nolintLines [⟨"f.go", 1, "// mu:nolint".toList⟩]) "f.go" 3 = false
    ∧ isSuppressedLine (nolintLines [⟨"f.go", 1, "// mu:nolint".toList⟩]) "f.go" 2 = true := by
  refine ⟨by decide, by decide, by decide⟩

/-- C7 amended: a line-scoped `mu:nolint` directive suppresses exactly the
diagnostics whose position lies on the line immediately following the
comment line (comment line + 1) in the same file, whether or not that line
is empty. -/
theorem isSuppressedLine_nolint_iff (comments : List commentRecord)
    (filename : String) (line : Nat) :
    isSuppressedLine (nolintLines comments) filename line = true ↔
      ∃ c ∈ comments, isNolintDirective (directiveText c.text) = true
        ∧ c.filename = filename ∧ c.line + 1 = line := by
  unfold isSuppressedLine nolintLines
  rw [List.any_eq_true]
  constructor
  · rintro ⟨p, hp, hmatch⟩
    rcases List.mem_filterMap.mp hp with ⟨c, hc, hsel⟩
    by_cases hdir : isNolintDirective (directiveText c.text) = true
    · rw [if_pos hdir] at hsel
      rcases Option.some_inj.mp hsel with rfl
      rw [Bool.and_eq_true, beq_iff_eq, beq_iff_eq] at hmatch
      exact ⟨c, hc, hdir, hmatch.1, hmatch.2⟩
    · rw [if_neg hdir] at hsel
      cases hsel
  · rintro ⟨c, hc, hdir, hfile, hline⟩
    refine ⟨(c.filename, c.line + 1), List.mem_filterMap.mpr ⟨c, hc, by rw [if_pos hdir]⟩, ?_⟩
    rw [Bool.and_eq_true, beq_iff_eq, beq_iff_eq]
    exact ⟨hfile, hline⟩

/-! ### Shared pass context for the reporting phases -/

/-- Embeds `heldMutexRef` (interprocedural state): normalized cross-function
representation of a held mutex — field index and lock mode. -/
structure heldMutexRef where
  FieldIndex : Nat
  Exclusive : Bool
deriving DecidableEq, Repr

/-- Embeds `callSiteRecord`: a static call with the normalized lock state at the
call point and the receiver SSA value when the callee is a method. -/
structure callSiteRecord where
  Caller : Nat
  Callee : Nat
  Pos : Nat
  HeldByStructType : List (Nat × List heldMutexRef)
  ReceiverValue : Option Nat
deriving DecidableEq, Repr

/-- Go map read on the normalized held-by-struct-type table. -/
def lookupStructHeld : List (Nat × List heldMutexRef) → Nat → Option (List heldMutexRef)
  | [], _ => none
  | kv :: rest, k => if kv.1 = k then some kv.2 else lookupStructHeld rest k

/-- Embeds `callerHoldsMutex` (interprocedural): the call site's normalized lock
state contains the mutex field key (mode-agnostic — any mode satisfies). -/
def callerHoldsMutex (cs : callSiteRecord) (mfk : mutexFieldKey) : Bool :=
  match lookupStructHeld cs.HeldByStructType mfk.StructType with
  | some heldRefs => heldRefs.any (fun hr => hr.FieldIndex == mfk.FieldIndex)
  | none => false

/-- Embeds `deferredLockTypoKey` (common state): (function, lock reference) pair
recorded when a deferred-acquire typo is reported. -/
structure deferredLockTypoKey where
  fn : Nat
  ref : lockRef
deriving DecidableEq, Repr

/-- Embeds `heldMutexField` (common state): a mutex field held on the same struct
base at an observation, with its mode. -/
structure heldMutexField where
  FieldIndex : Nat
  Exclusive : Bool
deriving DecidableEq, Repr

/-- Embeds `fieldKey` (common state): (struct type, field index). -/
structure fieldKey where
  StructType : Nat
  FieldIndex : Nat
deriving DecidableEq, Repr

/-- Embeds `observation` (common state): one field access with its lock context. -/
structure observation where
  SameBaseMutexFields : List heldMutexField
  IsRead : Bool
  Func : Nat
  Pos : Nat
deriving DecidableEq, Repr

/-- Embeds `guardInfo` (common state): inferred guard for a field. -/
structure guardInfo where
  MutexFieldIndex : Nat
  NeedsExclusive : Bool
deriving DecidableEq, Repr

/-- Embeds `unlockOfUnlockedCandidate` (common state): a release seen while the lock
was absent from the held set, collected by `checkAndRecordUnlock`. -/
structure unlockOfUnlockedCandidate where
  Fn : Nat
  Pos : Nat
  Ref : lockRef
deriving DecidableEq, Repr

/-- The `passContext` side tables consulted by the reporting phases.  Host
facilities (`lockRefToMutexFieldKey`, `lockRefName`, position-to-file/line
mapping, struct introspection) appear as function-valued fields; per-function
fact sets (`Requires`, `ReturnsHolding`) are total functions defaulting to
false for functions without a fact record. -/
structure passContext where
  observations : fieldKey → List observation
  ctorLike : Nat → Nat → Bool
  isConcurrent : Nat → Bool
  requires : Nat → mutexFieldKey → Bool
  returnsHolding : Nat → mutexFieldKey → Bool
  hasCallers : Nat → Bool
  callSites : List callSiteRecord
  refToKey : lockRef → Option mutexFieldKey
  refName : lockRef → String
  numFields : Nat → Option Nat
  ignored : Nat → Bool
  nolint : List (String × Nat)
  posFile : Nat → String
  posLine : Nat → Nat
  deferredLockTypoReported : List deferredLockTypoKey

/-- Embeds `isSuppressed` (annotations.go, lines 111-127): function-scoped ignore,
or a nolint entry covering the position's file and line (positions are file
offsets; 0 is `token.NoPos`, which is skipped as invalid). -/
def isSuppressed (ctx : passContext) (fn pos : Nat) : Bool :=
  ctx.ignored fn
    || (pos != 0 && isSuppressedLine ctx.nolint (ctx.posFile pos) (ctx.posLine pos))

/-- Embeds `functionRequiresMutex` (reporter.go, lines 354-364). -/
def functionRequiresMutex (ctx : passContext) (fn : Nat) (ref : lockRef) : Bool :=
  match ctx.refToKey ref with
  | some mfk => ctx.requires fn mfk
  | none => false

/-- Embeds `calleeReturnsHolding` (reporter.go, lines 335-349): some recorded callee
of `fn` returns holding `mfk`. -/
def calleeReturnsHolding (ctx : passContext) (fn : Nat) (mfk : mutexFieldKey) :
    Bool :=
  ctx.callSites.any (fun cs => cs.Caller == fn && ctx.returnsHolding cs.Callee mfk)

/-! ### C9: unlock-of-unheld reporting (reporter.go) -/

/-- A formatted unlock-of-unheld diagnostic. -/
structure unlockDiag where
  fn : Nat
  pos : Nat
  name : String
deriving DecidableEq, Repr

/-- Embeds `reportUnlockOfUnlocked` (reporter.go, lines 367-376): suppression check,
then the name render (empty name drops the report). -/
def reportUnlockOfUnlocked (ctx : passContext) (fn pos : Nat) (ref : lockRef) :
    Option unlockDiag :=
  if isSuppressed ctx fn pos then none
  else if ctx.refName ref == "" then none
  else some { fn := fn, pos := pos, name := ctx.refName ref }

/-- The loop body of `reportDeferredUnlockOfUnlocked` (reporter.go, lines
318-332) for one candidate. -/
def processUnlockCandidate (ctx : passContext) (c : unlockOfUnlockedCandidate) :
    Option unlockDiag :=
  if functionRequiresMutex ctx c.Fn c.Ref then none
  else if (match ctx.refToKey c.Ref with
           | some mfk => calleeReturnsHolding ctx c.Fn mfk
           | none => false) then none
  else reportUnlockOfUnlocked ctx c.Fn c.Pos c.Ref

/-- Embeds `reportDeferredUnlockOfUnlocked` (reporter.go, lines 318-332). -/
def reportDeferredUnlockOfUnlocked (ctx : passContext)
    (cands : List unlockOfUnlockedCandidate) : List unlockDiag :=
  cands.filterMap (processUnlockCandidate ctx)

/-- C9: for an unlock-of-unheld candidate whose lock reference normalizes to
mutex field key `mfk`, renders to a non-empty name, and has a valid position,
a diagnostic is emitted iff the function's `Requires` does not contain `mfk`,
no recorded callee returns holding `mfk`, and neither a function-scoped
ignore annotation nor a line-scoped suppression covers the position. -/
theorem unlockOfUnheld_emitted_iff (ctx : passContext)
    (c : unlockOfUnlockedCandidate) (mfk : mutexFieldKey)
    (hkey : ctx.refToKey c.Ref = some mfk)
    (hname : ¬ ctx.refName c.Ref = "")
    (hpos : c.Pos ≠ 0) :
    (processUnlockCandidate ctx c).isSome = true ↔
      (ctx.requires c.Fn mfk = false
        ∧ calleeReturnsHolding ctx c.Fn mfk = false
        ∧ ctx.ignored c.Fn = false
        ∧ isSuppressedLine ctx.nolint (ctx.posFile c.Pos) (ctx.posLine c.Pos) = false) := by
  unfold processUnlockCandidate functionRequiresMutex reportUnlockOfUnlocked isSuppressed
  rw [hkey]
  by_cases hreq : ctx.requires c.Fn mfk = true
  · simp [hreq]
  · rw [Bool.not_eq_true] at hreq
    by_cases hrh : calleeReturnsHolding ctx c.Fn mfk = true
    · simp [hreq, hrh]
    · rw [Bool.not_eq_true] at hrh
      by_cases hign : ctx.ignored c.Fn = true
      · simp [hreq, hrh, hign]
      · rw [Bool.not_eq_true] at hign
        by_cases hline : isSuppressedLine ctx.nolint (ctx.posFile c.Pos)
            (ctx.posLine c.Pos) = true
        · simp [hreq, hrh, hign, hline, hpos]
        · rw [Bool.not_eq_true] at hline
          have hbeq : (ctx.refName c.Ref == "") = false := by
            simpa [beq_iff_eq] using hname
          simp [hreq, hrh, hign, hline, hbeq]

/-- Witness for `unlockOfUnheld_emitted_iff` at a concrete context: with no
requirement, no returning-holding callee and no suppression, the diagnostic
is emitted. -/
theorem unlockOfUnheld_emitted_iff_witness :
    (passContext.mk (fun _ => []) (fun _ _ => false) (fun _ => true)
        (fun _ _ => false) (fun _ _ => false) (fun _ => false) []
        (fun r => some ⟨0, r.fieldIndex⟩) (fun _ => "Server.mu") (fun _ => some 4)
        (fun _ => false) [] (fun _ => "f.go") (fun p => p) []).refToKey
          (⟨2, 1⟩ : lockRef) = some ⟨0, 1⟩
    ∧ (processUnlockCandidate
        (passContext.mk (fun _ => []) (fun _ _ => false) (fun _ => true)
          (fun _ _ => false) (fun _ _ => false) (fun _ => false) []
          (fun r => some ⟨0, r.fieldIndex⟩) (fun _ => "Server.mu") (fun _ => some 4)
          (fun _ => false) [] (fun _ => "f.go") (fun p => p) [])
        ⟨3, 9, ⟨2, 1⟩⟩).isSome = true := by
  refine ⟨rfl, ?_⟩
  rw [unlockOfUnheld_emitted_iff _ ⟨3, 9, ⟨2, 1⟩⟩ ⟨0, 1⟩ rfl (by decide) (by decide)]
  exact ⟨rfl, rfl, rfl, rfl⟩

/-! ### C10: deferred-acquire typo versus lock-leak reporting
(ssawalk.go, reporter.go) -/

/-- Embeds `isLockMethod` (resolver.go). -/
def isLockMethod (name : String) : Bool :=
  name == "Lock" || name == "Unlock" || name == "RLock" || name == "RUnlock"

/-- Embeds `isLockAcquire` (resolver.go). -/
def isLockAcquire (name : String) : Bool :=
  name == "Lock" || name == "RLock"

/-- Embeds `isExclusiveLock` (resolver.go). -/
def isExclusiveLock (name : String) : Bool :=
  name == "Lock"

/-- Embeds `isExclusiveUnlock` (resolver.go). -/
def isExclusiveUnlock (name : String) : Bool :=
  name == "Unlock"

/-- A formatted deferred-acquire-typo diagnostic. -/
structure typoDiag where
  fn : Nat
  pos : Nat
  name : String
deriving DecidableEq, Repr

/-- A formatted lock-leak diagnostic. -/
structure leakDiag where
  fn : Nat
  pos : Nat
  name : String
  acquirePos : Nat
deriving DecidableEq, Repr

/-- Modelled from the spec: `reportDeferredLockInsteadOfUnlock`, whose body is
not in the sources (only its caller is).  Per the specification's diagnostic
table and suppression overlay, the DeferredAcquireTypo report is always
emitted subject to the annotation overlay, and a report that cannot be
formatted (empty lock name) is silently dropped. -/
def reportDeferredLockInsteadOfUnlock (ctx : passContext) (fn pos : Nat)
    (ref : lockRef) : Option typoDiag :=
  if isSuppressed ctx fn pos then none
  else if ctx.refName ref == "" then none
  else some { fn := fn, pos := pos, name := ctx.refName ref }

/-- Embeds `checkDeferredLockInsteadOfUnlock` (ssawalk.go, lines 307-314): when the
deferred call resolves to a lock reference and its method is an acquire,
report the typo and record the (function, reference) pair in
`deferredLockTypoReported`.  Returns the emitted reports and the updated
typo-reported set. -/
def checkDeferredLockInsteadOfUnlock (ctx : passContext) (fn pos : Nat)
    (resolvedRef : Option lockRef) (methodName : String)
    (typoSet : List deferredLockTypoKey) :
    List typoDiag × List deferredLockTypoKey :=
  match resolvedRef with
  | none => ([], typoSet)
  | some ref =>
    if isLockAcquire methodName then
      ((reportDeferredLockInsteadOfUnlock ctx fn pos ref).toList,
        ⟨fn, ref⟩ :: typoSet)
    else ([], typoSet)

/-- Embeds `reportLockLeak` (reporter.go, lines 303-314). -/
def reportLockLeak (ctx : passContext) (c : lockLeakCandidate) : Option leakDiag :=
  if isSuppressed ctx c.Fn c.Pos then none
  else if ctx.refName c.Ref == "" then none
  else some { fn := c.Fn, pos := c.Pos, name := ctx.refName c.Ref,
              acquirePos := c.AcquirePos }

/-- The loop body of `reportDeferredLockLeaks` (reporter.go, lines 285-300)
for one candidate: suppressed when the function `Requires` the lock or is an
acquire helper (`ReturnsHolding`) for it. -/
def processLeakCandidate (ctx : passContext) (c : lockLeakCandidate) :
    Option leakDiag :=
  if functionRequiresMutex ctx c.Fn c.Ref then none
  else if (match ctx.refToKey c.Ref with
           | some mfk => ctx.returnsHolding c.Fn mfk
           | none => false) then none
  else reportLockLeak ctx c

/-- Embeds `reportDeferredLockLeaks` (reporter.go, lines 285-300). -/
def reportDeferredLockLeaks (ctx : passContext)
    (cands : List lockLeakCandidate) : List leakDiag :=
  cands.filterMap (processLeakCandidate ctx)

/-- C10: recording a deferred-acquire typo never suppresses lock-leak
reporting.  (1) `reportDeferredLockLeaks` is invariant under the
`deferredLockTypoReported` set — the set is written by
`checkDeferredLockInsteadOfUnlock` but never consulted; (2) a function that
defers an acquire of a lock and has a leak candidate for the same lock, with
no `Requires`, no `ReturnsHolding` and no suppression, receives both the typo
diagnostic and the lock-leak diagnostic. -/
theorem deferredLockTypo_never_suppresses_leak (ctx : passContext)
    (T : List deferredLockTypoKey) (fn dpos : Nat) (ref : lockRef)
    (methodName : String) (cands : List lockLeakCandidate)
    (c : lockLeakCandidate) (mfk : mutexFieldKey) :
    reportDeferredLockLeaks
        { ctx with deferredLockTypoReported := T } cands
      = reportDeferredLockLeaks ctx cands
    ∧ (isLockAcquire methodName = true →
       isSuppressed ctx fn dpos = false →
       ¬ ctx.refName ref = "" →
       c ∈ cands → c.Fn = fn → c.Ref = ref →
       ctx.refToKey ref = some mfk →
       ctx.requires fn mfk = false →
       ctx.returnsHolding fn mfk = false →
       isSuppressed ctx c.Fn c.Pos = false →
       (checkDeferredLockInsteadOfUnlock ctx fn dpos (some ref) methodName T).1
           = [{ fn := fn, pos := dpos, name := ctx.refName ref }]
         ∧ ({ fn := c.Fn, pos := c.Pos, name := ctx.refName c.Ref,
              acquirePos := c.AcquirePos } : leakDiag)
             ∈ reportDeferredLockLeaks ctx cands) := by
  constructor
  · rfl
  · intro hacq hsup hname hmem hcfn hcref hkey hreq hrh hsupc
    have hbeq : (ctx.refName ref == "") = false := by
      simpa [beq_iff_eq] using hname
    constructor
    · unfold checkDeferredLockInsteadOfUnlock reportDeferredLockInsteadOfUnlock
      simp [hacq, hsup, hbeq]
    · unfold reportDeferredLockLeaks
      rw [List.mem_filterMap]
      refine ⟨c, hmem, ?_⟩
      unfold processLeakCandidate functionRequiresMutex reportLockLeak
      rw [hcfn] at hsupc
      rw [hcfn, hcref, hkey]
      simp [hreq, hrh, hsupc, hbeq, hcfn, hcref]

/-- Witness for `deferredLockTypo_never_suppresses_leak`: a function that
defers `mu.Lock()` and has a leak candidate for `mu` at one of its returns
gets both diagnostics. -/
theorem deferredLockTypo_never_suppresses_leak_witness :
    isLockAcquire "Lock" = true ∧
    (checkDeferredLockInsteadOfUnlock
        (passContext.mk (fun _ => []) (fun _ _ => false) (fun _ => true)
          (fun _ _ => false) (fun _ _ => false) (fun _ => false) []
          (fun r => some ⟨0, r.fieldIndex⟩) (fun _ => "Worker.mu") (fun _ => some 4)
          (fun _ => false) [] (fun _ => "f.go") (fun p => p) [])
        3 50 (some ⟨2, 1⟩) "Lock" []).1 = [{ fn := 3, pos := 50, name := "Worker.mu" }]
    ∧ ({ fn := 3, pos := 90, name := "Worker.mu", acquirePos := 40 } : leakDiag)
        ∈ reportDeferredLockLeaks
          (passContext.mk (fun _ => []) (fun _ _ => false) (fun _ => true)
            (fun _ _ => false) (fun _ _ => false) (fun _ => false) []
            (fun r => some ⟨0, r.fieldIndex⟩) (fun _ => "Worker.mu") (fun _ => some 4)
            (fun _ => false) [] (fun _ => "f.go") (fun p => p) [])
          [⟨3, 90, ⟨2, 1⟩, 40⟩] := by
  refine ⟨by decide, ?_⟩
  have h := (deferredLockTypo_never_suppresses_leak
    (passContext.mk (fun _ => []) (fun _ _ => false) (fun _ => true)
      (fun _ _ => false) (fun _ _ => false) (fun _ => false) []
      (fun r => some ⟨0, r.fieldIndex⟩) (fun _ => "Worker.mu") (fun _ => some 4)
      (fun _ => false) [] (fun _ => "f.go") (fun p => p) [])
    [] 3 50 ⟨2, 1⟩ "Lock" [⟨3, 90, ⟨2, 1⟩, 40⟩] ⟨3, 90, ⟨2, 1⟩, 40⟩ ⟨0, 1⟩).2
    (by decide) rfl (by decide) (List.mem_singleton.mpr rfl) rfl rfl rfl rfl rfl rfl
  exact h

/-! ### C1: determinism of the diagnostic sequence (reporter.go) -/

/-- A field-access diagnostic emitted by `checkViolations`:
`writeUnderShared` distinguishes the WriteUnderShared report from the plain
InconsistentField report. -/
structure violationDiag where
  writeUnderShared : Bool
  key : fieldKey
  mutexIndex : Nat
  pos : Nat
deriving DecidableEq, Repr

/-- Embeds `shouldSuppressDirectViolation` (reporter.go, lines 65-74). -/
def shouldSuppressDirectViolation (ctx : passContext) (fn : Nat)
    (mfk : mutexFieldKey) : Bool :=
  ctx.requires fn mfk && ctx.hasCallers fn

/-- Embeds `reportViolation` (reporter.go, lines 77-96): suppression check, then the
struct introspection used to render names (a non-struct underlying type or an
out-of-range index drops the report). -/
def reportViolation (ctx : passContext) (obs : observation) (key : fieldKey)
    (guard : guardInfo) : Option violationDiag :=
  if isSuppressed ctx obs.Func obs.Pos then none
  else match ctx.numFields key.StructType with
    | some n =>
        if n ≤ key.FieldIndex ∨ n ≤ guard.MutexFieldIndex then none
        else some { writeUnderShared := false, key := key,
                    mutexIndex := guard.MutexFieldIndex, pos := obs.Pos }
    | none => none

/-- Embeds `reportWriteUnderSharedLock` (reporter.go, lines 101-120). -/
def reportWriteUnderSharedLock (ctx : passContext) (obs : observation)
    (key : fieldKey) (guard : guardInfo) : Option violationDiag :=
  if isSuppressed ctx obs.Func obs.Pos then none
  else match ctx.numFields key.StructType with
    | some n =>
        if n ≤ key.FieldIndex ∨ n ≤ guard.MutexFieldIndex then none
        else some { writeUnderShared := true, key := key,
                    mutexIndex := guard.MutexFieldIndex, pos := obs.Pos }
    | none => none

/-- The per-observation body of `checkViolations` (reporter.go, lines 18-58). -/
def checkViolationsObs (ctx : passContext) (key : fieldKey) (guard : guardInfo)
    (obs : observation) : Option violationDiag :=
  if ctx.ctorLike obs.Func key.StructType then none
  else
    match obs.SameBaseMutexFields.find?
        (fun hmf => hmf.FieldIndex == guard.MutexFieldIndex) with
    | some hmf =>
        if !obs.IsRead && !hmf.Exclusive then
          (if ctx.isConcurrent obs.Func then
            reportWriteUnderSharedLock ctx obs key guard
          else none)
        else none
    | none =>
        if !ctx.isConcurrent obs.Func then none
        else if shouldSuppressDirectViolation ctx obs.Func
            ⟨key.StructType, guard.MutexFieldIndex⟩ then none
        else reportViolation ctx obs key guard

/-- Embeds `checkViolations` (reporter.go, lines 15-61): iterate `ctx.guards` — a Go
map, so in an arbitrary iteration order `guardsIter` — and for each guarded
field, its observations in slice order. -/
def checkViolations (ctx : passContext) (guardsIter : List (fieldKey × guardInfo)) :
    List violationDiag :=
  (guardsIter.map (fun kg =>
    (ctx.observations kg.1).filterMap (checkViolationsObs ctx kg.1 kg.2))).flatten

/-- A concrete pass context with two guarded fields of the same struct, each
with one unguarded concurrent access. -/
def determinismCtx : passContext :=
  passContext.mk
    (fun k =>
      if k = ⟨0, 1⟩ then [⟨[], true, 7, 100⟩]
      else if k = ⟨0, 2⟩ then [⟨[], true, 7, 200⟩]
      else [])
    (fun _ _ => false) (fun _ => true) (fun _ _ => false) (fun _ _ => false)
    (fun _ => false) [] (fun _ => none) (fun _ => "") (fun _ => some 4)
    (fun _ => false) [] (fun _ => "f.go") (fun p => p) []

/-- C1: two iteration orders of the same `ctx.guards` map — both legal for a
Go map, whose iteration order is unspecified — produce different diagnostic
sequences, so two runs over the same input need not be byte-identical. -/
theorem checkViolations_order_dependent :
    List.Perm
        [((⟨0, 1⟩ : fieldKey), (⟨3, true⟩ : guardInfo)), (⟨0, 2⟩, ⟨3, true⟩)]
        [(⟨0, 2⟩, ⟨3, true⟩), (⟨0, 1⟩, ⟨3, true⟩)]
    ∧ checkViolations determinismCtx
        [(⟨0, 1⟩, ⟨3, true⟩), (⟨0, 2⟩, ⟨3, true⟩)]
      ≠ checkViolations determinismCtx
        [(⟨0, 2⟩, ⟨3, true⟩), (⟨0, 1⟩, ⟨3, true⟩)] := by
  constructor
  · exact List.Perm.swap ((⟨0, 2⟩ : fieldKey), (⟨3, true⟩ : guardInfo))
      ((⟨0, 1⟩ : fieldKey), (⟨3, true⟩ : guardInfo)) []
  · decide

/-! ### C2: pre-publication suppression in upward requirement propagation

The walker (`recordCallSite`, ssawalk.go, lines 356-365) attaches the
receiver SSA value to every method call site for this rule; the propagation
pass that consumes it is not among the sources, so it is modelled from the
specification (section 4.6, "Pre-publication suppression"). -/

/-- Modelled from the spec: a publication operation found by scanning the
caller's instructions — a store of a value into a collection or a non-local
struct field, at a source position. -/
structure publicationRecord where
  fn : Nat
  value : Nat
  pos : Nat
deriving DecidableEq, Repr

/-- Modelled from the spec: the receiver is published before the call when
some publication of the same receiver value inside the caller precedes the
call's source position. -/
def receiverPublishedBefore (pubs : List publicationRecord) (caller recv callPos : Nat) :
    Bool :=
  pubs.any (fun p => p.fn == caller && p.value == recv && decide (p.pos < callPos))

/-- Modelled from the spec: suppress propagation through a call site when the
callee is a method on a struct type, the caller is constructor-like for that
type, and the receiver value is unpublished at the call position.
`calleeRecvStruct` gives the receiver struct type of a method callee. -/
def suppressPrePublication (ctorLike : Nat → Nat → Bool)
    (calleeRecvStruct : Nat → Option Nat) (pubs : List publicationRecord)
    (cs : callSiteRecord) : Bool :=
  match cs.ReceiverValue, calleeRecvStruct cs.Callee with
  | some recv, some st =>
      ctorLike cs.Caller st && !receiverPublishedBefore pubs cs.Caller recv cs.Pos
  | _, _ => false

/-- Modelled from the spec: the per-site decision of the upward requirement
fixed point — a callee requirement `mfk` is propagated to the caller through
call site `cs` only when the caller does not already hold the mutex and the
pre-publication suppression does not apply. -/
def propagateThroughSite (ctorLike : Nat → Nat → Bool)
    (calleeRecvStruct : Nat → Option Nat) (pubs : List publicationRecord)
    (cs : callSiteRecord) (mfk : mutexFieldKey) : Bool :=
  if callerHoldsMutex cs mfk then false
  else if suppressPrePublication ctorLike calleeRecvStruct pubs cs then false
  else true

/-- C2: for a call site whose callee is a method on a struct type for which
the caller is constructor-like, if no publication of the same receiver value
precedes the call's source position within the caller, then upward
requirement propagation does not add the callee's required mutex to the
caller through this call site. -/
theorem prePublication_suppresses_propagation (ctorLike : Nat → Nat → Bool)
    (calleeRecvStruct : Nat → Option Nat) (pubs : List publicationRecord)
    (cs : callSiteRecord) (mfk : mutexFieldKey) (recv st : Nat)
    (hrecv : cs.ReceiverValue = some recv)
    (hmeth : calleeRecvStruct cs.Callee = some st)
    (hctor : ctorLike cs.Caller st = true)
    (hunpub : ∀ p ∈ pubs, p.fn = cs.Caller → p.value = recv → ¬ p.pos < cs.Pos) :
    propagateThroughSite ctorLike calleeRecvStruct pubs cs mfk = false := by
  unfold propagateThroughSite suppressPrePublication
  rw [hrecv, hmeth]
  have hpub : receiverPublishedBefore pubs cs.Caller recv cs.Pos = false := by
    unfold receiverPublishedBefore
    rw [← Bool.not_eq_true, List.any_eq_true]
    rintro ⟨p, hp, hmatch⟩
    simp only [Bool.and_eq_true, beq_iff_eq, decide_eq_true_iff] at hmatch
    exact hunpub p hp hmatch.1.1 hmatch.1.2 hmatch.2
  by_cases hheld : callerHoldsMutex cs mfk = true
  · simp [hheld]
  · rw [Bool.not_eq_true] at hheld
    simp [hheld, hctor, hpub]

/-- Witness for `prePublication_suppresses_propagation`: a constructor
creates a struct, calls `setup()` on it at position 10, and publishes it only
at position 20 — the requirement is not propagated through the call. -/
theorem prePublication_suppresses_propagation_witness :
    (callSiteRecord.mk 1 2 10 [] (some 5)).ReceiverValue = some 5 ∧
    propagateThroughSite (fun caller stTy => caller == 1 && stTy == 9)
      (fun callee => if callee = 2 then some 9 else none)
      [⟨1, 5, 20⟩] (callSiteRecord.mk 1 2 10 [] (some 5)) ⟨9, 0⟩ = false := by
  refine ⟨rfl, ?_⟩
  apply prePublication_suppresses_propagation
      (fun caller stTy => caller == 1 && stTy == 9)
      (fun callee => if callee = 2 then some 9 else none)
      [⟨1, 5, 20⟩] (callSiteRecord.mk 1 2 10 [] (some 5)) ⟨9, 0⟩ 5 9 rfl rfl (by decide)
  intro p hp h1 h2
  rcases List.mem_singleton.mp hp with rfl
  decide

/-! ### C8: cycle deduplication by canonical rotation (lockorder.go)

`deduplicateCycles` compares cycles through the sequence of rendered
from/to edge-pair names (`mutexFieldKeyName` renderings, which are
unqualified, so distinct mutex field keys may render identically); the
comparison is a linear order on those renderings, abstracted here as a linear
order `α` on edge pairs.  The canonical key of a cycle is its rotation
starting at the minimum pair, found by the source's first-minimum scan
(`minIdx` loop); the dedup key string concatenates that rotation, modelled as
the rotated list itself. -/

/-- The `minIdx` scan of `deduplicateCycles` (lockorder.go, lines 160-166):
running minimum value with its index; updates only on strictly smaller
elements, so it keeps the first occurrence of the minimum. -/
def minPairAux {α : Type} [LinearOrder α] : List α → α → Nat → Nat → (Nat × α)
  | [], mv, best, _ => (best, mv)
  | y :: ys, mv, best, i =>
      if y < mv then minPairAux ys y i (i + 1) else minPairAux ys mv best (i + 1)

/-- Index of the first minimum pair of a cycle's edge-pair sequence. -/
def minIdxGo {α : Type} [LinearOrder α] : List α → Nat
  | [] => 0
  | x :: xs => (minPairAux xs x 0 1).1

/-- The canonical deduplication key of `deduplicateCycles`: the edge-pair
sequence rotated to start at the first minimum pair. -/
def canonKey {α : Type} [LinearOrder α] (l : List α) : List α :=
  l.rotate (minIdxGo l)

/-- The `seen`-map loop of `deduplicateCycles` (lockorder.go, lines 150-179):
keep each cycle whose canonical key has not been seen before. -/
def dedupCyclesAux {α : Type} [LinearOrder α] [DecidableEq α] :
    List (List α) → List (List α) → List (List α)
  | [], _ => []
  | cyc :: rest, seen =>
      if canonKey cyc ∈ seen then dedupCyclesAux rest seen
      else cyc :: dedupCyclesAux rest (canonKey cyc :: seen)

/-- Embeds `deduplicateCycles` (lockorder.go, lines 145-182): cycles whose
canonical keys collide are collapsed to the first occurrence. -/
def deduplicateCycles {α : Type} [LinearOrder α] [DecidableEq α]
    (cycles : List (List α)) : List (List α) :=
  dedupCyclesAux cycles []

theorem minPairAux_spec {α : Type} [LinearOrder α] (ys : List α) :
    ∀ (mv : α) (best i : Nat),
      (((minPairAux ys mv best i).2 = mv ∧ (minPairAux ys mv best i).1 = best)
        ∨ ∃ j, j < ys.length ∧ ys[j]? = some (minPairAux ys mv best i).2
            ∧ (minPairAux ys mv best i).1 = i + j)
      ∧ (minPairAux ys mv best i).2 ≤ mv
      ∧ ∀ x ∈ ys, (minPairAux ys mv best i).2 ≤ x := by
  induction ys with
  | nil =>
    intro mv best i
    refine ⟨Or.inl ⟨rfl, rfl⟩, le_refl _, ?_⟩
    intro x hx
    cases hx
  | cons y ys ih =>
    intro mv best i
    have hstep : minPairAux (y :: ys) mv best i =
        (if y < mv then minPairAux ys y i (i + 1) else minPairAux ys mv best (i + 1)) := rfl
    by_cases hlt : y < mv
    · have haux : minPairAux (y :: ys) mv best i = minPairAux ys y i (i + 1) := by
        rw [hstep, if_pos hlt]
      rw [haux]
      obtain ⟨hpos, hle, hall⟩ := ih y i (i + 1)
      refine ⟨?_, le_trans hle (le_of_lt hlt), ?_⟩
      · rcases hpos with ⟨hval, hidx⟩ | ⟨j, hj, hget, hidx⟩
        · exact Or.inr ⟨0, Nat.succ_pos _, by simp [hval], by omega⟩
        · refine Or.inr ⟨j + 1, by simpa using hj, ?_, by omega⟩
          simpa using hget
      · intro x hx
        rcases List.mem_cons.mp hx with rfl | hx2
        · exact hle
        · exact hall x hx2
    · have haux : minPairAux (y :: ys) mv best i = minPairAux ys mv best (i + 1) := by
        rw [hstep, if_neg hlt]
      rw [haux]
      obtain ⟨hpos, hle, hall⟩ := ih mv best (i + 1)
      refine ⟨?_, hle, ?_⟩
      · rcases hpos with ⟨hval, hidx⟩ | ⟨j, hj, hget, hidx⟩
        · exact Or.inl ⟨hval, hidx⟩
        · refine Or.inr ⟨j + 1, by simpa using hj, ?_, by omega⟩
          simpa using hget
      · intro x hx
        rcases List.mem_cons.mp hx with rfl | hx2
        · exact le_trans hle (not_lt.mp hlt)
        · exact hall x hx2

theorem minIdxGo_spec {α : Type} [LinearOrder α] (l : List α) (h : l ≠ []) :
    minIdxGo l < l.length ∧
      ∃ v, l[minIdxGo l]? = some v ∧ ∀ x ∈ l, v ≤ x := by
  cases l with
  | nil => exact absurd rfl h
  | cons x xs =>
    obtain ⟨hpos, hle, hall⟩ := minPairAux_spec xs x 0 1
    have hmin : minIdxGo (x :: xs) = (minPairAux xs x 0 1).1 := rfl
    rcases hpos with ⟨hval, hidx⟩ | ⟨j, hj, hget, hidx⟩
    · constructor
      · rw [hmin, hidx]; exact Nat.succ_pos _
      · refine ⟨(minPairAux xs x 0 1).2, ?_, ?_⟩
        · rw [hmin, hidx, hval]; simp
        · intro z hz
          rcases List.mem_cons.mp hz with rfl | hz2
          · exact hle
          · exact hall z hz2
    · constructor
      · rw [hmin, hidx]
        simp only [List.length_cons]
        omega
      · refine ⟨(minPairAux xs x 0 1).2, ?_, ?_⟩
        · rw [hmin, hidx, Nat.add_comm 1 j]
          simpa using hget
        · intro z hz
          rcases List.mem_cons.mp hz with rfl | hz2
          · exact hle
          · exact hall z hz2

theorem head?_canonKey {α : Type} [LinearOrder α] (l : List α) (h : l ≠ []) :
    ∃ v, (canonKey l).head? = some v ∧ v ∈ l ∧ ∀ x ∈ l, v ≤ x := by
  obtain ⟨hlt, v, hget, hmin⟩ := minIdxGo_spec l h
  refine ⟨v, ?_, ?_, hmin⟩
  · unfold canonKey
    rw [List.head?_rotate hlt]
    exact hget
  · exact List.getElem?_mem hget

theorem rotate_eq_of_head_eq {α : Type} (l : List α) (hnd : l.Nodup)
    (i j : Nat) (hi : i < l.length) (hj : j < l.length)
    (hhead : (l.rotate i).head? = (l.rotate j).head?) :
    l.rotate i = l.rotate j := by
  rw [List.head?_rotate hi, List.head?_rotate hj] at hhead
  rw [List.getElem?_eq_getElem hi, List.getElem?_eq_getElem hj] at hhead
  have heq : l.get ⟨i, hi⟩ = l.get ⟨j, hj⟩ := by
    simpa using hhead
  have hij : (⟨i, hi⟩ : Fin l.length) = ⟨j, hj⟩ :=
    (List.Nodup.get_inj_iff hnd).mp heq
  have hijv : i = j := congrArg Fin.val hij
  rw [hijv]

/-- C8 amended: for a cycle whose rendered edge-pair sequence contains no
duplicates, the deduplication key of `deduplicateCycles` is invariant under
rotation — any two discovery orders of such a cycle (rotations of one
another) map to the same canonical key, hence a single reported cycle.  The
no-duplicate hypothesis is over the rendered-name comparison domain and does
not hold in general: `detectCycles` produces cycles with pairwise distinct
source *keys*, but `mutexFieldKeyName` renders struct names unqualified, so
distinct keys can render identically; `dedupCycles_rotation_counterexample`
shows the invariance fails for a sequence with a repeated rendering. -/
theorem canonKey_rotate_invariant {α : Type} [LinearOrder α]
    (l : List α) (k : Nat) (hnd : l.Nodup) :
    canonKey (l.rotate k) = canonKey l := by
  cases hl : l with
  | nil => simp [canonKey]
  | cons x xs =>
    rw [← hl]
    have hne : l ≠ [] := by rw [hl]; exact List.cons_ne_nil x xs
    have hpos : 0 < l.length := List.length_pos.mpr hne
    have hlrne : l.rotate k ≠ [] := fun hcon =>
      hne (List.rotate_eq_nil_iff.mp hcon)
    -- heads of both canonical keys are the minimum element of `l`
    obtain ⟨v1, hv1head, hv1mem, hv1min⟩ := head?_canonKey (l.rotate k) hlrne
    obtain ⟨v2, hv2head, hv2mem, hv2min⟩ := head?_canonKey l hne
    have hv1mem' : v1 ∈ l := List.mem_rotate.mp hv1mem
    have hveq : v1 = v2 := by
      apply le_antisymm
      · exact hv1min v2 (List.mem_rotate.mpr hv2mem)
      · exact hv2min v1 hv1mem'
    -- express both keys as rotations of `l` by exponents below `l.length`
    obtain ⟨hilt, -⟩ := minIdxGo_spec (l.rotate k) hlrne
    rw [List.length_rotate] at hilt
    obtain ⟨hblt, -⟩ := minIdxGo_spec l hne
    have hck : canonKey (l.rotate k) = l.rotate ((k + minIdxGo (l.rotate k)) % l.length) := by
      unfold canonKey
      rw [List.rotate_rotate, List.rotate_mod]
    have hamod : (k + minIdxGo (l.rotate k)) % l.length < l.length :=
      Nat.mod_lt _ hpos
    have hbmod : canonKey l = l.rotate (minIdxGo l) := rfl
    rw [hck, hbmod]
    apply rotate_eq_of_head_eq l hnd _ _ hamod hblt
    rw [← hck, ← hbmod, hv1head, hv2head, hveq]

/-- Witness for `canonKey_rotate_invariant`: two discovery orders of the
three-edge cycle keyed `2 → 3 → 1` collapse to the same canonical key. -/
theorem canonKey_rotate_invariant_witness :
    ([2, 3, 1] : List Nat).Nodup
    ∧ canonKey (([2, 3, 1] : List Nat).rotate 1) = canonKey ([2, 3, 1] : List Nat) :=
  ⟨by decide, canonKey_rotate_invariant [2, 3, 1] 1 (by decide)⟩

/-- C8 counterexample: when the rendered edge-pair sequence of a cycle
contains a duplicate — here the rendering `0` occurs twice, as happens when
two distinct mutex field keys render to the same unqualified name — two
discovery orders of the same cycle (the sequence and its rotation by 2) are
canonicalized to different keys, and `deduplicateCycles` reports the one
cycle twice, refuting the claimed lexicographically-minimum-rotation
canonicalization and single-report property. -/
theorem dedupCycles_rotation_counterexample :
    ([0, 1, 0, 2, 3] : List Nat).rotate 2 = [0, 2, 3, 0, 1]
    ∧ canonKey (([0, 1, 0, 2, 3] : List Nat).rotate 2)
        ≠ canonKey ([0, 1, 0, 2, 3] : List Nat)
    ∧ (deduplicateCycles
        [([0, 1, 0, 2, 3] : List Nat), ([0, 1, 0, 2, 3] : List Nat).rotate 2]).length
        = 2 := by
  refine ⟨by decide, by decide, by decide⟩

end Golintmu
